import Mathlib

/-!
Verification development for the `vim-erlang-tags.py` tag generator.

The script scans Erlang source files line by line, recognizes
symbol-defining constructs with two regular expressions, accumulates
deduplicated tag records in a dictionary keyed by
`(TagName, FilePath, Kind, Scope)`, and serializes the dictionary into a
sorted ctags file.

This file gives a shallow embedding of that engine:

* lines are `List Char` (one physical line, terminator stripped; the two
  patterns treat a trailing newline exactly like end of input, so
  dropping terminators is observationally equivalent);
* the two regular expressions `func_re` and `recmac_re` are embedded as
  executable matching functions (`funcMatch`, `recmacMatch`).  The
  explicit character classes `[a-z]` and `[a-zA-Z0-9_@]` are exact.  The
  Unicode-aware classes `\s` and `\w` (the latter is what the word
  boundary `\b` consults) are modelled exactly for every code point
  below `0x100` — all of ASCII and Latin-1, including the non-breaking
  space `\xa0` and the Latin-1 letters such as `é`, whose word-ness is
  what lets `\b` accept an empty capture — while Python's classes
  additionally contain higher Unicode alphanumerics and whitespace that
  no finite table can enumerate.  Every theorem that depends on the
  classification of a character therefore either evaluates a concrete
  Latin-1 line (where the model is exact) or carries an explicit
  all-ASCII hypothesis;
* the tag dictionary is an insertion-ordered association list, with
  `dict.setdefault` embedded as `setdefault` (insert only when the key
  is absent);
* `verbose` logging is threaded explicitly: every function that may call
  `log` returns its result together with the list of diagnostic messages
  it emitted to the error stream;
* the fall-through of `add_recmac_tag` (no `kind` assigned when the
  attribute is neither `record` nor `define`, which would raise
  `UnboundLocalError` at the subsequent use) is modelled by `Option`:
  `none` is the error outcome;
* reading a file is abstracted as a map from paths to line sequences
  (`fs : String → List (List Char)`), the collaborator that supplies
  each opened file's lines.
-/

/-! ### Character classes

The explicit classes are exact.  `\w` and `\s` are Python's
Unicode-aware classes; `isWLatin1` and `isPySpace` list their members
below code point `0x100` exactly as Python's regex engine accepts them
(checked character by character against `re` for every code point
`0x00`–`0xff`). -/

/-- `[a-z]`: the leading character class of `func_re`. -/
def isLowerAZ (c : Char) : Bool := 'a' ≤ c && c ≤ 'z'

/-- `[A-Z]`. -/
def isUpperAZ (c : Char) : Bool := 'A' ≤ c && c ≤ 'Z'

/-- `[0-9]`. -/
def isDigit09 (c : Char) : Bool := '0' ≤ c && c ≤ '9'

/-- The ASCII word characters `[a-zA-Z0-9_]`. -/
def isWAscii (c : Char) : Bool := isLowerAZ c || isUpperAZ c || isDigit09 c || c == '_'

/-- The non-ASCII word characters of Latin-1: the feminine/masculine
ordinals, superscript digits, micro sign, vulgar fractions and the
Latin-1 letters (alphanumerics for Python's `\w`). -/
def isWLatin1 (c : Char) : Bool :=
  let n := c.toNat
  n == 0xaa || (0xb2 ≤ n && n ≤ 0xb3) || n == 0xb5 || (0xb9 ≤ n && n ≤ 0xba) ||
    (0xbc ≤ n && n ≤ 0xbe) || (0xc0 ≤ n && n ≤ 0xd6) || (0xd8 ≤ n && n ≤ 0xf6) ||
    (0xf8 ≤ n && n ≤ 0xff)

/-- `\w` (the word class the word-boundary `\b` consults): exact below
`0x100`; Python additionally treats higher Unicode alphanumerics as
word characters, which no theorem below relies on. -/
def isW (c : Char) : Bool := isWAscii c || isWLatin1 c

/-- The explicit class `[a-zA-Z0-9_@]` captured by both regexes.
Note `@` is in this class but is not a `\w` character, and the class
itself is pure ASCII. -/
def isWordAt (c : Char) : Bool := isWAscii c || c == '@'

/-- `\s`: exact below `0x100` — `\t\n\v\f\r`, the separator controls
`\x1c`–`\x1f`, the space, `\x85` and the no-break space `\xa0`; Python
additionally treats higher Unicode whitespace as `\s`, which no theorem
below relies on. -/
def isPySpace (c : Char) : Bool :=
  let n := c.toNat
  (0x09 ≤ n && n ≤ 0x0d) || (0x1c ≤ n && n ≤ 0x20) || n == 0x85 || n == 0xa0

/-! ### Path helpers (`os.path.basename`, `os.path.splitext`, `str.strip`) -/

/-- `os.path.basename` (posix): the part of the path after the last `/`. -/
def pyBasename (s : String) : String :=
  String.mk ((s.data.reverse.takeWhile (fun c => c != '/')).reverse)

/-- `os.path.splitext` applied to a basename (no `/` handling needed since
the script always applies it to `os.path.basename file`): split at the last
dot, except that a name whose characters before the last dot are all dots
(such as `.hrl` or `...`) has no extension. -/
def pySplitext (s : String) : String × String :=
  let l := s.data
  let after := l.reverse.takeWhile (fun c => c != '.')
  if after.length = l.length then (s, "")
  else
    let d := l.length - 1 - after.length
    if (l.take d).any (fun c => c != '.') then
      (String.mk (l.take d), String.mk (l.drop d))
    else (s, "")

/-- `str.strip()`: remove leading and trailing whitespace. -/
def pyStrip (s : String) : String :=
  String.mk (((s.data.dropWhile isPySpace).reverse.dropWhile isPySpace).reverse)

/-! ### The function-definition recognizer

`func_re = re.compile("^([a-z][a-zA-Z0-9_@]*)\\s*\\(")`, used with
`re.match` (anchored at the start of the line).  Greedy matching without
backtracking is exact here: the classes `[a-zA-Z0-9_@]`, `\s` and the
literal `(` are pairwise disjoint, so shortening either starred part can
never repair a failed match. -/

/-- Match `func_re` against a line; return the captured group 1
(the function name) on success. -/
def funcMatch (line : List Char) : Option (List Char) :=
  match line with
  | [] => none
  | c :: r1 =>
    if isLowerAZ c then
      match (r1.dropWhile isWordAt).dropWhile isPySpace with
      | '(' :: _ => some (c :: r1.takeWhile isWordAt)
      | _ => none
    else none

/-! ### The record/macro recognizer

`recmac_re = re.compile("^-\\s*(record|define)\\s*\\(\\s*([a-zA-Z0-9_@]*)\\b")`.

The only place where regex backtracking matters is the final
`([a-zA-Z0-9_@]*)\b`: the engine first consumes the maximal run of
class characters, then retreats one character at a time until the word
boundary `\b` holds.  The position right before the capture carries a
non-word character (`(` or whitespace), and the first character after
the maximal run is outside the class and hence also non-word; `bnd` and
the descending search `findB` model exactly this. -/

/-- Is the `Option Char` at one side of a position a word character?
`none` (before the capture, or end of input) counts as non-word. -/
def charW : Option Char → Bool
  | none => false
  | some c => isW c

/-- Word-boundary test between position `k-1` and `k` of `run ++ rest`,
where the character preceding `run` is known to be non-word. -/
def bnd (run rest : List Char) (k : Nat) : Bool :=
  charW (if k = 0 then none else run[k-1]?) !=
    charW (if k < run.length then run[k]? else rest.head?)

/-- Backtracking search: largest `j ≤ k` with a word boundary at `j`. -/
def findB (run rest : List Char) : Nat → Option Nat
  | 0 => if bnd run rest 0 then some 0 else none
  | k + 1 => if bnd run rest (k + 1) then some (k + 1) else findB run rest k

/-- The literal alternation `(record|define)` at the head of `r`. -/
def matchAttr (r : List Char) : Option (String × List Char) :=
  if r.take 6 = "record".data then some ("record", r.drop 6)
  else if r.take 6 = "define".data then some ("define", r.drop 6)
  else none

/-- Match `recmac_re` against a line; return the captured attribute word
(group 1) and name (group 2) on success. -/
def recmacMatch (line : List Char) : Option (String × List Char) :=
  match line with
  | '-' :: r1 =>
    match matchAttr (r1.dropWhile isPySpace) with
    | some (attr, r3) =>
      match r3.dropWhile isPySpace with
      | '(' :: r5 =>
        let r6 := r5.dropWhile isPySpace
        let run := r6.takeWhile isWordAt
        let rest := r6.dropWhile isWordAt
        match findB run rest run.length with
        | some k => some (attr, run.take k)
        | none => none
      | _ => none
    | none => none
  | _ => none

/-! ### The tag dictionary

`tags` is a Python dict `{(TagName, FilePath, Kind, Scope): TagAddress}`;
we embed it as an insertion-ordered association list with unique keys.
`Kind` and `Scope` are the strings the script uses
(`"F" "M" "f" "r" "d"` and `"global"`/`"local"`). -/

/-- The dictionary key `(TagName, FilePath, Kind, Scope)`. -/
abbrev TagKey := String × String × String × String

/-- The tag dictionary: insertion-ordered key/address pairs. -/
abbrev Tags := List (TagKey × String)

/-- `dict.setdefault(k, v)`: insert `(k, v)` at the end only when `k` is
not already a key. -/
def setdefault (tags : Tags) (k : TagKey) (v : String) : Tags :=
  if tags.any (fun p => p.1 == k) then tags else tags ++ [(k, v)]

/-- `add_tag(tags, tag, file, tagaddress, scope, kind)`. -/
def add_tag (tags : Tags) (tag file tagaddress scope kind : String) : Tags :=
  setdefault tags (tag, file, kind, scope) tagaddress

/-- A `log(...)` call: one message on the error stream when verbose,
nothing otherwise. -/
def log (verbose : Bool) (msg : String) : List String :=
  if verbose then [msg] else []

/-- `add_file_tag(tags, file, basename, name_and_ext)`: the per-file
tags emitted before scanning lines (`F` always, `M` for `.erl`). -/
def add_file_tag (tags : Tags) (file basename : String) (nae : String × String) : Tags :=
  let t := add_tag tags basename file "1" "global" "F"
  if nae.2 = ".erl" then add_tag t nae.1 file "1" "global" "M" else t

/-- `add_func_tags(tags, file, name_and_ext, func_name)`: the global
`mod:f` entry and the local `f` entry, both addressed `/^f\>/`. -/
def add_func_tags (verbose : Bool) (tags : Tags) (file : String) (nae : String × String)
    (func_name : String) : Tags × List String :=
  (add_tag (add_tag tags (nae.1 ++ ":" ++ func_name) file ("/^" ++ func_name ++ "\\>/")
        "global" "f")
      func_name file ("/^" ++ func_name ++ "\\>/") "local" "f",
   log verbose ("Function definition found: " ++ func_name))

/-- The scope chosen by `add_recmac_tag`:
`'global' if name_and_ext[1] == '.hrl' else 'local'`. -/
def scopeOf (nae : String × String) : String :=
  if nae.2 = ".hrl" then "global" else "local"

/-- `add_recmac_tag(tags, file, name_and_ext, attribute, name)`.  The
Python `if/elif` assigns `kind` only for `record` and `define`; on any
other attribute the later use of `kind` raises, which we model as
`none`. The address string is `"/^-\\s\\*" + attribute +
"\\s\\*(\\s\\*" + name + "\\>/"`, i.e. the characters
`/^-\s\*attribute\s\*(\s\*name\>/`. -/
def add_recmac_tag (verbose : Bool) (tags : Tags) (file : String) (nae : String × String)
    (attr name : String) : Option Tags × List String :=
  let scope := scopeOf nae
  let addr := "/^-\\s\\*" ++ attr ++ "\\s\\*(\\s\\*" ++ name ++ "\\>/"
  if attr = "record" then
    (some (add_tag tags name file addr scope "r"), log verbose ("Record found: " ++ name))
  else if attr = "define" then
    (some (add_tag tags name file addr scope "d"), log verbose ("Macro found: " ++ name))
  else
    (none, [])

/-- `scan_tags(file, name_and_ext, line, tags)`: try `func_re`, then
`recmac_re`; a line matching neither leaves the dictionary unchanged. -/
def scan_tags (verbose : Bool) (file : String) (nae : String × String) (line : List Char)
    (tags : Tags) : Option Tags × List String :=
  match funcMatch line with
  | some n =>
    let r := add_func_tags verbose tags file nae (String.mk n)
    (some r.1, r.2)
  | none =>
    match recmacMatch line with
    | some (a, n) => add_recmac_tag verbose tags file nae a (String.mk n)
    | none => (some tags, [])

/-- One step of the per-line loop of `add_tags_from_file`; an error
(`none`) aborts the loop, so later lines add nothing. -/
def fileStep (verbose : Bool) (file : String) (nae : String × String)
    (acc : Option Tags × List String) (line : List Char) : Option Tags × List String :=
  match acc.1 with
  | none => acc
  | some t =>
    let r := scan_tags verbose file nae line t
    (r.1, acc.2 ++ r.2)

/-- `add_tags_from_file(file, tags)` with the file's lines supplied. -/
def add_tags_from_file (verbose : Bool) (tags : Tags) (file : String)
    (lines : List (List Char)) : Option Tags × List String :=
  let basename := pyBasename file
  let nae := pySplitext basename
  lines.foldl (fileStep verbose file nae)
    (some (add_file_tag tags file basename nae), log verbose ("Processing file: " ++ file))

/-- One step of the per-path loop of `create_tags`: process one path
(`process_dir_or_file` on a non-directory path) with the collaborator
`fs` supplying the opened file's lines. -/
def pathStep (verbose : Bool) (fs : String → List (List Char))
    (acc : Option Tags × List String) (file : String) : Option Tags × List String :=
  match acc.1 with
  | none => acc
  | some t =>
    let r := add_tags_from_file verbose t file (fs file)
    (r.1, acc.2 ++ r.2)

/-- The list of paths `create_tags` processes, in order:
`files.pop(files.index('-'))` removes the first `-` (if any), in which
case the stripped lines of the standard-input stream are processed
first, followed by the remaining listed paths. -/
def processed_paths (files stdinLines : List String) : List String :=
  match files.findIdx? (fun f => f == "-") with
  | some i => stdinLines.map pyStrip ++ files.eraseIdx i
  | none => files

/-- `create_tags(files)`: start from the empty dictionary and process
every path. -/
def create_tags (verbose : Bool) (fs : String → List (List Char))
    (files stdinLines : List String) : Option Tags × List String :=
  (processed_paths files stdinLines).foldl (pathStep verbose fs)
    (some [], log verbose "Tags dictionary created.")

/-! ### Serialization (`tags_to_file`, `tag_to_str`) -/

/-- One output line: `Name<TAB>FilePath<TAB>Address;"<TAB>Kind`, with
`<TAB>file:` appended exactly when the scope is not `global`, and a
terminating newline. -/
def tag_to_str (e : TagKey × String) : String :=
  let scopestr := if e.1.2.2.2 = "global" then "" else "\tfile:"
  e.1.1 ++ "\t" ++ e.1.2.1 ++ "\t" ++ e.2 ++ ";\"\t" ++ e.1.2.2.1 ++ scopestr ++ "\n"

/-- The fixed first line of the output file. -/
def tagsHeader : String := "!_TAG_FILE_SORTED\t1\t/0=unsorted, 1=sorted/\n"

/-! ### The extractor as a record list

`line_records`/`file_records` list, in emission order, exactly the
key/address pairs the scanning functions pass to `add_tag`; folding
`setdefault` over them (`insertAll`) recovers the dictionary, which lets
order-independence be stated about the inserted records. -/

/-- The kind letter `add_recmac_tag` assigns (`none` = the fall-through
in which no kind is assigned). -/
def recmacKind (attr : String) : Option String :=
  if attr = "record" then some "r" else if attr = "define" then some "d" else none

/-- The key/address pairs emitted for one line, in emission order. -/
def line_records (file : String) (nae : String × String) (line : List Char) :
    List (TagKey × String) :=
  match funcMatch line with
  | some n =>
    [((nae.1 ++ ":" ++ String.mk n, file, "f", "global"), "/^" ++ String.mk n ++ "\\>/"),
     ((String.mk n, file, "f", "local"), "/^" ++ String.mk n ++ "\\>/")]
  | none =>
    match recmacMatch line with
    | some (a, n) =>
      match recmacKind a with
      | some k =>
        [((String.mk n, file, k, scopeOf nae),
          "/^-\\s\\*" ++ a ++ "\\s\\*(\\s\\*" ++ String.mk n ++ "\\>/")]
      | none => []
    | none => []

/-- The key/address pairs emitted for one whole file, in emission order. -/
def file_records (file : String) (lines : List (List Char)) : List (TagKey × String) :=
  let basename := pyBasename file
  let nae := pySplitext basename
  (((basename, file, "F", "global"), "1") ::
    (if nae.2 = ".erl" then [((nae.1, file, "M", "global"), "1")] else [])) ++
  lines.flatMap (line_records file nae)

/-- Fold `setdefault` over a record list. -/
def insertAll (tags : Tags) (rs : List (TagKey × String)) : Tags :=
  rs.foldl (fun t r => setdefault t r.1 r.2) tags

/-- First-match association-list lookup (on a dictionary with unique
keys this is dictionary lookup; on a raw record list it returns the
first-writer's address). -/
def lookupA (k : TagKey) : List (TagKey × String) → Option String
  | [] => none
  | p :: t => if p.1 = k then some p.2 else lookupA k t

/-- A record list is consistent when records sharing a key agree on the
address (the extractor's output is, since every address is determined by
its key). -/
def Consistent (rs : List (TagKey × String)) : Prop :=
  ∀ p ∈ rs, ∀ q ∈ rs, p.1 = q.1 → p.2 = q.2

/-! ### Sorting (`sorted(tags.items())`)

Python compares the items of the dictionary lexicographically: first the
key 4-tuples (themselves compared lexicographically, component-wise by
string code points), then the address.  `lexc` is one lexicographic
combination step; `itemLe` is the resulting total order on items. -/

/-- Lexicographic combination: strictly smaller first component, or equal
first components and related second components. -/
def lexc {α β : Type} (ltA : α → α → Prop) (rB : β → β → Prop) (p q : α × β) : Prop :=
  ltA p.1 q.1 ∨ (p.1 = q.1 ∧ rB p.2 q.2)

/-- Strict lexicographic order on keys. -/
def keyLt : TagKey → TagKey → Prop :=
  lexc (· < ·) (lexc (· < ·) (lexc (· < ·) (· < ·)))

/-- Non-strict lexicographic order on keys. -/
def keyLe (a b : TagKey) : Prop := keyLt a b ∨ a = b

/-- Python's ordering on dictionary items `(key, address)`. -/
def itemLe : TagKey × String → TagKey × String → Prop :=
  lexc keyLt (· ≤ ·)

instance lexcDecidable {α β : Type} (ltA : α → α → Prop) (rB : β → β → Prop)
    [DecidableEq α] [DecidableRel ltA] [DecidableRel rB] : DecidableRel (lexc ltA rB) :=
  fun p q => inferInstanceAs (Decidable (ltA p.1 q.1 ∨ (p.1 = q.1 ∧ rB p.2 q.2)))

instance keyLtDecidable : DecidableRel keyLt :=
  fun a b =>
    inferInstanceAs (Decidable (lexc (· < ·) (lexc (· < ·) (lexc (· < ·) (· < ·))) a b))

instance itemLeDecidable : DecidableRel itemLe :=
  fun a b => inferInstanceAs (Decidable (lexc keyLt (· ≤ ·) a b))

/-- `sorted(tags.items())`. -/
def sortItems (tags : Tags) : Tags := List.insertionSort itemLe tags

/-- `tags_to_file(tags, ...)`: the byte content written to the output
file, header first, then one line per item in sorted order. -/
def tags_to_file (tags : Tags) : String :=
  tagsHeader ++ String.join ((sortItems tags).map tag_to_str)

/-! ### Dictionary lemmas -/

theorem lookupA_nil (k : TagKey) : lookupA k [] = none := rfl

theorem lookupA_cons (k : TagKey) (p : TagKey × String) (t : List (TagKey × String)) :
    lookupA k (p :: t) = if p.1 = k then some p.2 else lookupA k t := rfl

/-- The guard of `setdefault` tests key membership. -/
theorem setdefault_mem_iff (tags : Tags) (k : TagKey) :
    (tags.any (fun p => p.1 == k)) = true ↔ k ∈ tags.map Prod.fst := by
  simp [List.any_eq_true, List.mem_map]

/-- Inserting an already-present key is a no-op. -/
theorem setdefault_of_mem {tags : Tags} {k : TagKey} (v : String)
    (h : k ∈ tags.map Prod.fst) : setdefault tags k v = tags := by
  unfold setdefault
  rw [if_pos ((setdefault_mem_iff tags k).mpr h)]

/-- Inserting an absent key appends it. -/
theorem setdefault_of_not_mem {tags : Tags} {k : TagKey} (v : String)
    (h : k ∉ tags.map Prod.fst) : setdefault tags k v = tags ++ [(k, v)] := by
  unfold setdefault
  rw [if_neg (fun hc => h ((setdefault_mem_iff tags k).mp hc))]

/-- `setdefault` preserves key uniqueness. -/
theorem setdefault_nodup {tags : Tags} (k : TagKey) (v : String)
    (h : (tags.map Prod.fst).Nodup) : ((setdefault tags k v).map Prod.fst).Nodup := by
  by_cases hm : k ∈ tags.map Prod.fst
  · rw [setdefault_of_mem v hm]; exact h
  · rw [setdefault_of_not_mem v hm]
    simp only [List.map_append, List.map_cons, List.map_nil]
    refine List.Nodup.append h (List.nodup_singleton _) ?_
    intro a ha hk
    rw [List.mem_singleton] at hk
    subst hk
    exact hm ha

/-- `insertAll` preserves key uniqueness. -/
theorem insertAll_nodup (rs : List (TagKey × String)) :
    ∀ {tags : Tags}, (tags.map Prod.fst).Nodup → ((insertAll tags rs).map Prod.fst).Nodup := by
  induction rs with
  | nil => intro tags h; exact h
  | cons r rs ih => intro tags h; exact ih (setdefault_nodup r.1 r.2 h)

/-- `lookupA` only returns members. -/
theorem lookupA_mem {k : TagKey} {v : String} :
    ∀ {rs : List (TagKey × String)}, lookupA k rs = some v → (k, v) ∈ rs := by
  intro rs
  induction rs with
  | nil => intro h; simp [lookupA_nil] at h
  | cons p t ih =>
    intro h
    rw [lookupA_cons] at h
    by_cases hp : p.1 = k
    · rw [if_pos hp] at h
      have hv : p.2 = v := by injection h
      rcases p with ⟨a, b⟩
      simp only at hp hv
      rw [hp, hv]
      exact List.mem_cons_self _ _
    · rw [if_neg hp] at h
      exact List.mem_cons_of_mem _ (ih h)

/-- `lookupA` fails exactly when no record has the key. -/
theorem lookupA_eq_none_iff {k : TagKey} :
    ∀ {rs : List (TagKey × String)}, lookupA k rs = none ↔ ∀ v, (k, v) ∉ rs := by
  intro rs
  induction rs with
  | nil => simp [lookupA_nil]
  | cons p t ih =>
    rw [lookupA_cons]
    by_cases hp : p.1 = k
    · rw [if_pos hp]
      refine iff_of_false (by simp) ?_
      intro hall
      apply hall p.2
      rcases p with ⟨a, b⟩
      simp only at hp
      subst hp
      exact List.mem_cons_self _ _
    · rw [if_neg hp, ih]
      constructor
      · intro h v hv
        rcases List.mem_cons.mp hv with h1 | h2
        · subst h1
          exact hp rfl
        · exact h v h2
      · intro h v hv
        exact h v (List.mem_cons_of_mem _ hv)

/-- A member's key is found by `lookupA`. -/
theorem lookupA_ne_none_of_mem {k : TagKey} {v : String} {rs : List (TagKey × String)}
    (h : (k, v) ∈ rs) : lookupA k rs ≠ none :=
  fun hn => (lookupA_eq_none_iff.mp hn) v h

/-- On a consistent record list, `lookupA` returns exactly the common
address of the key's records. -/
theorem lookupA_eq_some_iff {k : TagKey} {v : String} {rs : List (TagKey × String)}
    (hc : Consistent rs) : lookupA k rs = some v ↔ (k, v) ∈ rs := by
  constructor
  · exact lookupA_mem
  · intro hm
    cases hl : lookupA k rs with
    | none => exact absurd hl (lookupA_ne_none_of_mem hm)
    | some w =>
      have := hc (k, w) (lookupA_mem hl) (k, v) hm rfl
      simp_all

/-- Consistency transfers along permutations. -/
theorem Consistent.perm {rs₁ rs₂ : List (TagKey × String)} (hp : rs₁.Perm rs₂)
    (hc : Consistent rs₁) : Consistent rs₂ :=
  fun p hps q hqs hk => hc p (hp.mem_iff.mpr hps) q (hp.mem_iff.mpr hqs) hk

/-- `lookupA` on a consistent list is permutation-invariant. -/
theorem lookupA_perm {rs₁ rs₂ : List (TagKey × String)} (hp : rs₁.Perm rs₂)
    (hc : Consistent rs₁) (k : TagKey) : lookupA k rs₁ = lookupA k rs₂ := by
  cases h1 : lookupA k rs₁ with
  | none =>
    cases h2 : lookupA k rs₂ with
    | none => rfl
    | some w => exact absurd (hp.mem_iff.mpr (lookupA_mem h2)) (lookupA_eq_none_iff.mp h1 w)
  | some v =>
    exact ((lookupA_eq_some_iff (hc.perm hp)).mpr (hp.mem_iff.mp (lookupA_mem h1))).symm

/-- Looking up in `tags ++ [(k', v)]`. -/
theorem lookupA_append_single (k k' : TagKey) (v : String) (tags : Tags) :
    lookupA k (tags ++ [(k', v)]) =
      (lookupA k tags).or (if k' = k then some v else none) := by
  induction tags with
  | nil =>
    by_cases h : k' = k <;> simp [h, lookupA_cons, lookupA_nil, Option.or]
  | cons p t ih =>
    rw [List.cons_append, lookupA_cons, lookupA_cons]
    by_cases hp : p.1 = k
    · rw [if_pos hp, if_pos hp]
      cases hifv : (if k' = k then some v else none) <;> simp [Option.or]
    · rw [if_neg hp, if_neg hp]
      exact ih

/-- Key membership is `lookupA` success. -/
theorem mem_keys_iff_lookupA {k : TagKey} {tags : Tags} :
    k ∈ tags.map Prod.fst ↔ lookupA k tags ≠ none := by
  constructor
  · intro h
    rcases List.mem_map.mp h with ⟨p, hp, hk⟩
    refine lookupA_ne_none_of_mem (v := p.2) ?_
    rcases p with ⟨a, b⟩
    simp only at hk
    subst hk
    exact hp
  · intro h
    cases hl : lookupA k tags with
    | none => exact absurd hl h
    | some v => exact List.mem_map.mpr ⟨(k, v), lookupA_mem hl, rfl⟩

/-- The dictionary built by folding `setdefault` over records answers
lookups like the record list itself: first writer wins. -/
theorem lookupA_insertAll (rs : List (TagKey × String)) :
    ∀ (tags : Tags) (k : TagKey),
      lookupA k (insertAll tags rs) = (lookupA k tags).or (lookupA k rs) := by
  induction rs with
  | nil =>
    intro tags k
    rw [show insertAll tags [] = tags from rfl, lookupA_nil]
    cases h : lookupA k tags <;> simp [Option.or]
  | cons r rs ih =>
    intro tags k
    rw [show insertAll tags (r :: rs) = insertAll (setdefault tags r.1 r.2) rs from rfl,
      ih, lookupA_cons]
    by_cases hm : r.1 ∈ tags.map Prod.fst
    · rw [setdefault_of_mem _ hm]
      by_cases hk : r.1 = k
      · subst hk
        rw [if_pos rfl]
        cases hl : lookupA r.1 tags with
        | none => exact absurd hl (mem_keys_iff_lookupA.mp hm)
        | some w => simp [Option.or]
      · rw [if_neg hk]
    · rw [setdefault_of_not_mem _ hm, lookupA_append_single]
      by_cases hk : r.1 = k
      · rw [if_pos hk, if_pos hk]
        cases lookupA k tags <;> cases lookupA k rs <;> simp [Option.or]
      · rw [if_neg hk, if_neg hk]
        cases lookupA k tags <;> simp [Option.or]

/-- First-writer-wins folding from the empty dictionary reproduces
first-match lookup on the record list. -/
theorem lookupA_insertAll_nil (rs : List (TagKey × String)) (k : TagKey) :
    lookupA k (insertAll [] rs) = lookupA k rs := by
  rw [lookupA_insertAll]
  simp [lookupA_nil, Option.or]

/-! ### Recognizer lemmas -/

theorem charW_some (c : Char) : charW (some c) = isW c := rfl

theorem charW_none : charW none = false := rfl

/-- The Latin-1 extension of `\w` lives entirely at or above `0xaa`,
so it is empty on ASCII. -/
theorem isWLatin1_eq_false_of_ascii {c : Char} (h : c.toNat < 128) :
    isWLatin1 c = false := by
  simp only [isWLatin1]
  simp only [Bool.or_eq_false_iff, Bool.and_eq_false_iff, beq_eq_false_iff_ne,
    ne_eq, decide_eq_false_iff_not, Nat.not_le]
  omega

/-- On ASCII characters the word class coincides with `[a-zA-Z0-9_]`. -/
theorem isW_eq_isWAscii_of_ascii {c : Char} (h : c.toNat < 128) :
    isW c = isWAscii c := by
  rw [isW, isWLatin1_eq_false_of_ascii h, Bool.or_false]

/-- An ASCII character outside the explicit class `[a-zA-Z0-9_@]` is not
a word character.  (This fails for non-ASCII characters such as `é`,
which are word characters outside the explicit class — the source of
empty captures.) -/
theorem isW_of_not_isWordAt {c : Char} (ha : c.toNat < 128)
    (h : isWordAt c = false) : isW c = false := by
  rw [isW_eq_isWAscii_of_ascii ha]
  rw [isWordAt] at h
  exact (Bool.or_eq_false_iff.mp h).1

/-- A successful `matchAttr` captured one of the two attribute words. -/
theorem matchAttr_some {r : List Char} {a : String} {rest : List Char}
    (h : matchAttr r = some (a, rest)) : a = "record" ∨ a = "define" := by
  unfold matchAttr at h
  split at h
  · simp only [Option.some.injEq, Prod.mk.injEq] at h
    exact Or.inl h.1.symm
  · split at h
    · simp only [Option.some.injEq, Prod.mk.injEq] at h
      exact Or.inr h.1.symm
    · exact absurd h (by simp)

/-- A successful `matchAttr` consumed exactly six characters. -/
theorem matchAttr_rest {r : List Char} {a : String} {rest : List Char}
    (h : matchAttr r = some (a, rest)) : rest = r.drop 6 := by
  unfold matchAttr at h
  split at h
  · simp only [Option.some.injEq, Prod.mk.injEq] at h
    exact h.2.symm
  · split at h
    · simp only [Option.some.injEq, Prod.mk.injEq] at h
      exact h.2.symm
    · exact absurd h (by simp)

/-- Group 1 of a successful `recmac_re` match is `record` or `define`. -/
theorem recmac_attr {line : List Char} {a : String} {n : List Char}
    (h : recmacMatch line = some (a, n)) : a = "record" ∨ a = "define" := by
  unfold recmacMatch at h
  split at h
  · split at h
    · rename_i attr r3 hma
      split at h
      · dsimp only at h
        split at h
        · simp only [Option.some.injEq, Prod.mk.injEq] at h
          exact h.1 ▸ matchAttr_some hma
        · exact absurd h (by simp)
      · exact absurd h (by simp)
    · exact absurd h (by simp)
  · exact absurd h (by simp)

/-- If the descending boundary search succeeds at `0`, the boundary held
at `0` and failed everywhere in `[1, m]`. -/
theorem findB_eq_zero {run rest : List Char} :
    ∀ {m : Nat}, findB run rest m = some 0 →
      bnd run rest 0 = true ∧ ∀ j, 1 ≤ j → j ≤ m → bnd run rest j = false := by
  intro m
  induction m with
  | zero =>
    intro h
    unfold findB at h
    split at h
    · exact ⟨by assumption, fun j h1 h2 => by omega⟩
    · exact absurd h (by simp)
  | succ m ih =>
    intro h
    unfold findB at h
    split at h
    · exact absurd h (by simp)
    · rename_i hbnd
      obtain ⟨b0, hall⟩ := ih h
      refine ⟨b0, fun j h1 h2 => ?_⟩
      by_cases hj : j = m + 1
      · subst hj
        exact Bool.eq_false_iff.mpr hbnd
      · exact hall j h1 (by omega)

theorem mem_of_head? {α : Type} {l : List α} {c : α} (h : l.head? = some c) : c ∈ l := by
  cases l with
  | nil => exact Option.noConfusion h
  | cons x t =>
    injection h with h1
    rw [← h1]
    exact List.mem_cons_self _ _

theorem dropWhile_mem {α : Type} {p : α → Bool} :
    ∀ {l : List α} {x : α}, x ∈ l.dropWhile p → x ∈ l := by
  intro l
  induction l with
  | nil => intro x h; simp at h
  | cons a t ih =>
    intro x h
    rw [List.dropWhile_cons] at h
    by_cases hp : p a = true
    · rw [if_pos hp] at h
      exact List.mem_cons_of_mem _ (ih h)
    · rw [if_neg hp] at h
      exact h

/-- The searched run is the maximal `isWordAt` prefix of the text after
`(\s*`; on ASCII text, if the backtracking search succeeds, the
boundary position is positive and the run nonempty, so the captured
prefix is nonempty.  (The ASCII hypothesis is essential: a non-ASCII
word character such as `é` right after the run — or right after `(\s*`
— is outside the explicit class yet satisfies `\w`, which makes the
boundary hold at the empty capture.) -/
theorem findB_take_ne_nil (r6 : List Char) (hA : ∀ c ∈ r6, c.toNat < 128) {k : Nat}
    (h : findB (r6.takeWhile isWordAt) (r6.dropWhile isWordAt)
        (r6.takeWhile isWordAt).length = some k) :
    (r6.takeWhile isWordAt).take k ≠ [] := by
  set run := r6.takeWhile isWordAt with hrun
  set rest := r6.dropWhile isWordAt with hrest
  have hrestW : charW rest.head? = false := by
    have hdw := List.head?_dropWhile_not isWordAt r6
    rw [← hrest] at hdw
    cases hh : rest.head? with
    | none => exact charW_none
    | some c =>
      rw [hh] at hdw
      rw [charW_some]
      have hc6 : c ∈ r6 := by
        have hcr : c ∈ rest := mem_of_head? hh
        rw [hrest] at hcr
        exact dropWhile_mem hcr
      exact isW_of_not_isWordAt (hA c hc6) hdw
  have hrun_ne : run ≠ [] := by
    intro hnil
    have hb0 : bnd [] rest 0 = false := by
      unfold bnd
      rw [if_pos rfl, charW_none]
      rw [if_neg (by simp : ¬ (0 < ([] : List Char).length))]
      rw [hrestW]
      rfl
    rw [hnil] at h
    simp only [List.length_nil] at h
    rw [show findB [] rest 0 = (if bnd [] rest 0 = true then some 0 else none) from rfl] at h
    rw [hb0] at h
    exact absurd h (by simp)
  have hk_ne : k ≠ 0 := by
    intro hk0
    subst hk0
    obtain ⟨b0, hall⟩ := findB_eq_zero h
    have hlen : 0 < run.length := List.length_pos.mpr hrun_ne
    have h0 : isW run[0] = true := by
      unfold bnd at b0
      rw [if_pos rfl, charW_none, if_pos hlen, List.getElem?_eq_getElem hlen,
        charW_some] at b0
      simpa using b0
    have allW : ∀ i, (hi : i < run.length) → isW run[i] = true := by
      intro i
      induction i with
      | zero => intro hi; exact h0
      | succ i ihW =>
        intro hi
        have hprev : i < run.length := by omega
        have hb := hall (i + 1) (by omega) (by omega)
        unfold bnd at hb
        rw [if_neg (by omega : ¬ (i + 1 = 0)), if_pos hi] at hb
        simp only [Nat.add_sub_cancel] at hb
        rw [List.getElem?_eq_getElem hprev, List.getElem?_eq_getElem hi,
          charW_some, charW_some, ihW hprev] at hb
        simpa using hb
    have hlast : isW run[run.length - 1] = true := allW _ (by omega)
    have hend := hall run.length (by omega) (le_refl _)
    unfold bnd at hend
    rw [if_neg (by omega : ¬ (run.length = 0)),
      if_neg (by omega : ¬ (run.length < run.length)),
      List.getElem?_eq_getElem (by omega : run.length - 1 < run.length), charW_some,
      hlast, hrestW] at hend
    simp at hend
  cases hr : run with
  | nil => exact absurd hr hrun_ne
  | cons r0 run' =>
    cases hkk : k with
    | zero => exact absurd hkk hk_ne
    | succ j => simp

/-- Group 2 of a successful `recmac_re` match on an all-ASCII line is
nonempty.  Without the ASCII restriction this fails: see the
`-define(é)` counterexample, where `\b` holds at the empty capture. -/
theorem recmac_name_ne_nil {line : List Char} {a : String} {n : List Char}
    (hline : ∀ c ∈ line, c.toNat < 128)
    (h : recmacMatch line = some (a, n)) : n ≠ [] := by
  unfold recmacMatch at h
  split at h
  · rename_i r1
    split at h
    · rename_i attr r3 hma
      split at h
      · rename_i r5 hpar
        dsimp only at h
        split at h
        · rename_i k hfind
          simp only [Option.some.injEq, Prod.mk.injEq] at h
          obtain ⟨ha, hn⟩ := h
          subst hn
          refine findB_take_ne_nil _ ?_ hfind
          intro c hc
          apply hline
          have h1 : c ∈ r5 := dropWhile_mem hc
          have h2 : c ∈ r3.dropWhile isPySpace := by
            rw [hpar]
            exact List.mem_cons_of_mem _ h1
          have h3 : c ∈ r3 := dropWhile_mem h2
          rw [matchAttr_rest hma] at h3
          have h5 : c ∈ List.dropWhile isPySpace r1 := List.drop_subset _ _ h3
          exact List.mem_cons_of_mem _ (dropWhile_mem h5)
        · exact absurd h (by simp)
      · exact absurd h (by simp)
    · exact absurd h (by simp)
  · exact absurd h (by simp)

theorem insertAll_append (t : Tags) (rs₁ rs₂ : List (TagKey × String)) :
    insertAll t (rs₁ ++ rs₂) = insertAll (insertAll t rs₁) rs₂ := by
  simp [insertAll, List.foldl_append]

/-- One scanned line changes the dictionary exactly by first-writer-wins
insertion of the line's records, and never errors. -/
theorem scan_tags_fst (v : Bool) (file : String) (nae : String × String) (line : List Char)
    (t : Tags) :
    (scan_tags v file nae line t).1 = some (insertAll t (line_records file nae line)) := by
  unfold scan_tags line_records
  cases hf : funcMatch line with
  | some n => rfl
  | none =>
    cases hr : recmacMatch line with
    | none => rfl
    | some p =>
      obtain ⟨a, n⟩ := p
      rcases recmac_attr hr with ha | ha <;> subst ha <;>
        simp [add_recmac_tag, recmacKind, add_tag, insertAll]

/-- The per-line loop inserts the records of all lines in order. -/
theorem foldl_fileStep_insertAll (v : Bool) (file : String) (nae : String × String) :
    ∀ (lines : List (List Char)) (t : Tags) (ms : List String),
      (lines.foldl (fileStep v file nae) (some t, ms)).1 =
        some (insertAll t (lines.flatMap (line_records file nae))) := by
  intro lines
  induction lines with
  | nil => intro t ms; rfl
  | cons l ls ih =>
    intro t ms
    rw [List.foldl_cons]
    have hstep : fileStep v file nae (some t, ms) l =
        ((scan_tags v file nae l t).1, ms ++ (scan_tags v file nae l t).2) := rfl
    rw [hstep, scan_tags_fst, ih, List.flatMap_cons, insertAll_append]

theorem add_file_tag_insertAll (t : Tags) (file b : String) (nae : String × String) :
    add_file_tag t file b nae =
      insertAll t (((b, file, "F", "global"), "1") ::
        (if nae.2 = ".erl" then [((nae.1, file, "M", "global"), "1")] else [])) := by
  by_cases h : nae.2 = ".erl" <;> simp [add_file_tag, add_tag, insertAll, h]

/-- Processing one file changes the dictionary exactly by
first-writer-wins insertion of the file's records, and never errors. -/
theorem add_tags_from_file_fst (v : Bool) (t : Tags) (file : String)
    (lines : List (List Char)) :
    (add_tags_from_file v t file lines).1 = some (insertAll t (file_records file lines)) := by
  unfold add_tags_from_file file_records
  rw [foldl_fileStep_insertAll]
  rw [add_file_tag_insertAll, List.cons_append, ← insertAll_append]
  rfl

/-- The per-path loop inserts the records of all processed files. -/
theorem foldl_pathStep_insertAll (v : Bool) (fs : String → List (List Char)) :
    ∀ (paths : List String) (t : Tags) (ms : List String),
      ((paths.foldl (pathStep v fs) (some t, ms)).1 =
        some (insertAll t (paths.flatMap (fun p => file_records p (fs p))))) := by
  intro paths
  induction paths with
  | nil => intro t ms; rfl
  | cons p ps ih =>
    intro t ms
    rw [List.foldl_cons]
    have hstep : pathStep v fs (some t, ms) p =
        ((add_tags_from_file v t p (fs p)).1, ms ++ (add_tags_from_file v t p (fs p)).2) := rfl
    rw [hstep, add_tags_from_file_fst, ih, List.flatMap_cons, insertAll_append]

/-- The dictionary `create_tags` builds: first-writer-wins insertion of
every record of every processed path, independent of `verbose`. -/
theorem create_tags_fst (v : Bool) (fs : String → List (List Char))
    (files stdinLines : List String) :
    (create_tags v fs files stdinLines).1 =
      some (insertAll []
        ((processed_paths files stdinLines).flatMap (fun p => file_records p (fs p)))) := by
  unfold create_tags
  rw [foldl_pathStep_insertAll]

/-! ### Every extractor record's address is determined by its key -/

theorem strAppend_left_cancel {a b c : String} (h : a ++ b = a ++ c) : b = c := by
  have h2 := congrArg String.data h
  rw [String.data_append, String.data_append] at h2
  exact String.ext (List.append_cancel_left h2)

theorem line_records_func {file : String} {nae : String × String} {line n : List Char}
    (hf : funcMatch line = some n) :
    line_records file nae line =
      [((nae.1 ++ ":" ++ String.mk n, file, "f", "global"), "/^" ++ String.mk n ++ "\\>/"),
       ((String.mk n, file, "f", "local"), "/^" ++ String.mk n ++ "\\>/")] := by
  unfold line_records
  rw [hf]

theorem line_records_nomatch {file : String} {nae : String × String} {line : List Char}
    (hf : funcMatch line = none) (hr : recmacMatch line = none) :
    line_records file nae line = [] := by
  unfold line_records
  rw [hf, hr]

theorem line_records_record {file : String} {nae : String × String} {line n : List Char}
    (hf : funcMatch line = none) (hr : recmacMatch line = some ("record", n)) :
    line_records file nae line =
      [((String.mk n, file, "r", scopeOf nae),
        "/^-\\s\\*record\\s\\*(\\s\\*" ++ String.mk n ++ "\\>/")] := by
  unfold line_records
  rw [hf, hr]
  rfl

theorem line_records_define {file : String} {nae : String × String} {line n : List Char}
    (hf : funcMatch line = none) (hr : recmacMatch line = some ("define", n)) :
    line_records file nae line =
      [((String.mk n, file, "d", scopeOf nae),
        "/^-\\s\\*define\\s\\*(\\s\\*" ++ String.mk n ++ "\\>/")] := by
  unfold line_records
  rw [hf, hr]
  rfl

/-- Case analysis for a record emitted by one line. -/
theorem line_records_shape {file : String} {nae : String × String} {line : List Char}
    {r : TagKey × String} (h : r ∈ line_records file nae line) :
    (∃ n : List Char,
      r = ((nae.1 ++ ":" ++ String.mk n, file, "f", "global"),
        "/^" ++ String.mk n ++ "\\>/")) ∨
    (∃ n : List Char,
      r = ((String.mk n, file, "f", "local"), "/^" ++ String.mk n ++ "\\>/")) ∨
    (∃ n : List Char,
      r = ((String.mk n, file, "r", scopeOf nae),
        "/^-\\s\\*record\\s\\*(\\s\\*" ++ String.mk n ++ "\\>/")) ∨
    (∃ n : List Char,
      r = ((String.mk n, file, "d", scopeOf nae),
        "/^-\\s\\*define\\s\\*(\\s\\*" ++ String.mk n ++ "\\>/")) := by
  cases hf : funcMatch line with
  | some n =>
    rw [line_records_func hf] at h
    rcases List.mem_cons.mp h with h1 | h2
    · exact Or.inl ⟨n, h1⟩
    · rw [List.mem_singleton] at h2
      exact Or.inr (Or.inl ⟨n, h2⟩)
  | none =>
    cases hr : recmacMatch line with
    | none =>
      rw [line_records_nomatch hf hr] at h
      exact absurd h (List.not_mem_nil r)
    | some p =>
      obtain ⟨a, n⟩ := p
      rcases recmac_attr hr with ha | ha <;> subst ha
      · rw [line_records_record hf hr, List.mem_singleton] at h
        exact Or.inr (Or.inr (Or.inl ⟨n, h⟩))
      · rw [line_records_define hf hr, List.mem_singleton] at h
        exact Or.inr (Or.inr (Or.inr ⟨n, h⟩))

/-- Case analysis for a record emitted for one file. -/
theorem file_records_shape {file : String} {lines : List (List Char)}
    {r : TagKey × String} (h : r ∈ file_records file lines) :
    r = ((pyBasename file, file, "F", "global"), "1") ∨
    r = (((pySplitext (pyBasename file)).1, file, "M", "global"), "1") ∨
    (∃ n : List Char,
      r = (((pySplitext (pyBasename file)).1 ++ ":" ++ String.mk n, file, "f", "global"),
        "/^" ++ String.mk n ++ "\\>/")) ∨
    (∃ n : List Char,
      r = ((String.mk n, file, "f", "local"), "/^" ++ String.mk n ++ "\\>/")) ∨
    (∃ n : List Char,
      r = ((String.mk n, file, "r", scopeOf (pySplitext (pyBasename file))),
        "/^-\\s\\*record\\s\\*(\\s\\*" ++ String.mk n ++ "\\>/")) ∨
    (∃ n : List Char,
      r = ((String.mk n, file, "d", scopeOf (pySplitext (pyBasename file))),
        "/^-\\s\\*define\\s\\*(\\s\\*" ++ String.mk n ++ "\\>/")) := by
  unfold file_records at h
  rcases List.mem_append.mp h with h1 | h2
  · rcases List.mem_cons.mp h1 with h3 | h4
    · exact Or.inl h3
    · by_cases hc : (pySplitext (pyBasename file)).2 = ".erl"
      · rw [if_pos hc, List.mem_singleton] at h4
        exact Or.inr (Or.inl h4)
      · rw [if_neg hc] at h4
        exact absurd h4 (List.not_mem_nil r)
  · rcases List.mem_flatMap.mp h2 with ⟨l, hl, hrl⟩
    rcases line_records_shape hrl with hs | hs | hs | hs
    · exact Or.inr (Or.inr (Or.inl hs))
    · exact Or.inr (Or.inr (Or.inr (Or.inl hs)))
    · exact Or.inr (Or.inr (Or.inr (Or.inr (Or.inl hs))))
    · exact Or.inr (Or.inr (Or.inr (Or.inr (Or.inr hs))))

/-- Any two records extracted from any collection of input files that
share a key share their address: the extractor's record stream is
consistent, whatever the files, even when a file is supplied twice. -/
theorem file_records_consistent (inputs : List (String × List (List Char))) :
    Consistent (inputs.flatMap (fun pr => file_records pr.1 pr.2)) := by
  intro p hp q hq hk
  rcases List.mem_flatMap.mp hp with ⟨ip, hip, hpr⟩
  rcases List.mem_flatMap.mp hq with ⟨iq, hiq, hqr⟩
  obtain ⟨f1, ls1⟩ := ip
  obtain ⟨f2, ls2⟩ := iq
  have sp := file_records_shape hpr
  have sq := file_records_shape hqr
  clear hp hq hpr hqr hip hiq
  rcases sp with hs | hs | ⟨n, hs⟩ | ⟨n, hs⟩ | ⟨n, hs⟩ | ⟨n, hs⟩ <;>
    rcases sq with ht | ht | ⟨m, ht⟩ | ⟨m, ht⟩ | ⟨m, ht⟩ | ⟨m, ht⟩ <;>
      subst hs <;> subst ht <;>
        simp only [Prod.mk.injEq] at hk <;>
          obtain ⟨h1, h2, h3, h4⟩ := hk <;>
            subst h2 <;>
              first
              | rfl
              | exact absurd h3 (by decide)
              | exact absurd h4 (by decide)
              | rw [strAppend_left_cancel h1]
              | rw [h1]

/-! ### The item order is total and transitive -/

theorem lexc_trans {α β : Type} {ltA : α → α → Prop} {rB : β → β → Prop}
    (hA : ∀ x y z : α, ltA x y → ltA y z → ltA x z)
    (hB : ∀ x y z : β, rB x y → rB y z → rB x z)
    {p q r : α × β} (h1 : lexc ltA rB p q) (h2 : lexc ltA rB q r) : lexc ltA rB p r := by
  rcases h1 with h1 | ⟨e1, h1⟩
  · rcases h2 with h2 | ⟨e2, h2⟩
    · exact Or.inl (hA _ _ _ h1 h2)
    · exact Or.inl (by rw [← e2]; exact h1)
  · rcases h2 with h2 | ⟨e2, h2⟩
    · exact Or.inl (by rw [e1]; exact h2)
    · exact Or.inr ⟨e1.trans e2, hB _ _ _ h1 h2⟩

theorem lexc_tri {α β : Type} {ltA : α → α → Prop} {rB : β → β → Prop}
    (hA : ∀ x y : α, ltA x y ∨ x = y ∨ ltA y x)
    (hB : ∀ x y : β, rB x y ∨ x = y ∨ rB y x)
    (p q : α × β) : lexc ltA rB p q ∨ p = q ∨ lexc ltA rB q p := by
  rcases hA p.1 q.1 with h | h | h
  · exact Or.inl (Or.inl h)
  · rcases hB p.2 q.2 with h2 | h2 | h2
    · exact Or.inl (Or.inr ⟨h, h2⟩)
    · refine Or.inr (Or.inl ?_)
      obtain ⟨a, b⟩ := p
      obtain ⟨c, d⟩ := q
      simp only at h h2
      rw [h, h2]
    · exact Or.inr (Or.inr (Or.inr ⟨h.symm, h2⟩))
  · exact Or.inr (Or.inr (Or.inl h))

theorem keyLt_trans {a b c : TagKey} (h1 : keyLt a b) (h2 : keyLt b c) : keyLt a c := by
  unfold keyLt at h1 h2 ⊢
  refine lexc_trans ?_ ?_ h1 h2
  · exact fun _ _ _ ha hb => lt_trans ha hb
  · intro x y z ha hb
    refine lexc_trans ?_ ?_ ha hb
    · exact fun _ _ _ hc hd => lt_trans hc hd
    · intro x2 y2 z2 hc hd
      refine lexc_trans ?_ ?_ hc hd
      · exact fun _ _ _ he hf => lt_trans he hf
      · exact fun _ _ _ he hf => lt_trans he hf

theorem keyLt_tri (a b : TagKey) : keyLt a b ∨ a = b ∨ keyLt b a := by
  unfold keyLt
  refine lexc_tri (fun x y => lt_trichotomy x y) ?_ a b
  intro x y
  refine lexc_tri (fun x y => lt_trichotomy x y) ?_ x y
  intro x2 y2
  exact lexc_tri (fun u v => lt_trichotomy u v) (fun u v => lt_trichotomy u v) x2 y2

instance itemLeTrans : IsTrans (TagKey × String) itemLe := by
  refine ⟨fun x y z h1 h2 => ?_⟩
  unfold itemLe at h1 h2 ⊢
  refine lexc_trans ?_ ?_ h1 h2
  · exact fun _ _ _ ha hb => keyLt_trans ha hb
  · exact fun _ _ _ ha hb => le_trans ha hb

instance itemLeTotal : IsTotal (TagKey × String) itemLe := by
  refine ⟨fun p q => ?_⟩
  unfold itemLe
  rcases keyLt_tri p.1 q.1 with h | h | h
  · exact Or.inl (Or.inl h)
  · rcases le_total p.2 q.2 with h2 | h2
    · exact Or.inl (Or.inr ⟨h, h2⟩)
    · exact Or.inr (Or.inr ⟨h.symm, h2⟩)
  · exact Or.inr (Or.inl h)

theorem itemLe_keyLe {p q : TagKey × String} (h : itemLe p q) : keyLe p.1 q.1 :=
  h.imp (fun h1 => h1) (fun h1 => h1.1)

theorem itemLe_keyLt {p q : TagKey × String} (h : itemLe p q) (hne : p.1 ≠ q.1) :
    keyLt p.1 q.1 := by
  rcases h with h1 | ⟨e1, _⟩
  · exact h1
  · exact absurd e1 hne

/-- `sorted(tags.items())` is a permutation of the items. -/
theorem sortItems_perm (tags : Tags) : (sortItems tags).Perm tags :=
  List.perm_insertionSort itemLe tags

/-- `sorted(tags.items())` is sorted for the item order. -/
theorem sortItems_sorted (tags : Tags) : (sortItems tags).Sorted itemLe :=
  List.sorted_insertionSort itemLe tags

/-- The keys of the sorted items are in (non-strictly) ascending
lexicographic order. -/
theorem sortItems_keys_le (tags : Tags) :
    ((sortItems tags).map Prod.fst).Pairwise keyLe := by
  rw [List.pairwise_map]
  exact (sortItems_sorted tags).imp (fun h => itemLe_keyLe h)

/-- On a dictionary (unique keys) the sorted keys are in strictly
ascending lexicographic order. -/
theorem sortItems_keys_lt (tags : Tags) (h : (tags.map Prod.fst).Nodup) :
    ((sortItems tags).map Prod.fst).Pairwise keyLt := by
  have hnd : ((sortItems tags).map Prod.fst).Nodup :=
    (((sortItems_perm tags).map Prod.fst).nodup_iff).mpr h
  have hcomb := (sortItems_keys_le tags).and hnd
  exact hcomb.imp (fun hx => by
    rcases hx with ⟨hle, hne⟩
    rcases hle with h1 | h1
    · exact h1
    · exact absurd h1 hne)

/-! ### `files.pop(files.index('-'))` removes exactly the first `-` -/

theorem eraseIdx_findIdx?_erase (a : String) :
    ∀ (l : List String) (i : Nat),
      l.findIdx? (fun f => f == a) = some i → l.eraseIdx i = l.erase a := by
  intro l
  induction l with
  | nil => intro i h; exact Option.noConfusion h
  | cons x xs ih =>
    intro i h
    rw [List.findIdx?_cons] at h
    by_cases hx : (x == a) = true
    · rw [if_pos hx] at h
      injection h with h0
      subst h0
      rw [List.eraseIdx_cons_zero, List.erase_cons, if_pos hx]
    · rw [if_neg hx] at h
      rw [List.findIdx?_succ] at h
      cases hfi : xs.findIdx? (fun f => f == a) with
      | none => rw [hfi] at h; exact Option.noConfusion h
      | some j =>
        rw [hfi] at h
        rw [show Option.map (fun i => i + 1) (some j) = some (j + 1) from rfl] at h
        injection h with h1
        subst h1
        rw [List.eraseIdx_cons_succ, List.erase_cons, if_neg hx]
        rw [ih j hfi]

theorem findIdx?_isSome_of_mem {a : String} :
    ∀ {l : List String}, a ∈ l → (l.findIdx? (fun f => f == a)).isSome = true := by
  intro l
  induction l with
  | nil => intro h; exact absurd h (List.not_mem_nil a)
  | cons x xs ih =>
    intro h
    rw [List.findIdx?_cons]
    by_cases hx : (x == a) = true
    · rw [if_pos hx]; rfl
    · rw [if_neg hx, List.findIdx?_succ]
      rcases List.mem_cons.mp h with h1 | h2
      · exact absurd (by rw [h1]; exact beq_self_eq_true x) hx
      · cases hfi : xs.findIdx? (fun f => f == a) with
        | none =>
          have h3 := ih h2
          rw [hfi] at h3
          exact absurd h3 (by simp)
        | some j => rfl

/-- When the path list contains `-`, `create_tags` processes exactly the
stripped standard-input lines followed by the list with its first `-`
removed. -/
theorem processed_paths_of_mem {files stdinLines : List String} (h : "-" ∈ files) :
    processed_paths files stdinLines = stdinLines.map pyStrip ++ files.erase "-" := by
  unfold processed_paths
  cases hfi : files.findIdx? (fun f => f == "-") with
  | none =>
    have := findIdx?_isSome_of_mem h
    rw [hfi] at this
    exact absurd this (by simp)
  | some i =>
    exact congrArg (fun t => List.map pyStrip stdinLines ++ t)
      (eraseIdx_findIdx?_erase "-" files i hfi)

/-- The two recognizers are mutually exclusive: a `recmac_re` line starts
with `-`, which `func_re` rejects. -/
theorem recmac_funcMatch_none {line : List Char} {a : String} {n : List Char}
    (h : recmacMatch line = some (a, n)) : funcMatch line = none := by
  cases line with
  | nil => exact Option.noConfusion h
  | cons c r1 =>
    by_cases hc : c = '-'
    · subst hc
      rfl
    · have hnone : recmacMatch (c :: r1) = none := by
        unfold recmacMatch
        split
        · rename_i heq
          injection heq with h1 h2
          exact absurd h1 hc
        · rfl
      rw [hnone] at h
      exact Option.noConfusion h

/-- C1: the claim's Scenario A table is wrong on the file tag: the file
tag's Name is the full basename `foo.erl` (the script passes `basename`
to `add_tag`), not `foo`; the key `(foo, foo.erl, F, global)` is absent
from the table produced for the file. -/
theorem scenarioA_file_tag_name_counterexample :
    (add_tags_from_file false [] "foo.erl" ["bar(X) -> X.".data]).1.map
      (lookupA ("foo", "foo.erl", "F", "global")) = some none := by decide

/-- C1 (amended): extracting tags from `foo.erl` containing the single
line `bar(X) -> X.` produces exactly four records: the file tag
`(foo.erl, foo.erl, F, global, "1")`, the module tag
`(foo, foo.erl, M, global, "1")`, the global function tag
`(foo:bar, foo.erl, f, global, "/^bar\>/")` and the local function tag
`(bar, foo.erl, f, local, "/^bar\>/")`. -/
theorem scenarioA_tags :
    (add_tags_from_file false [] "foo.erl" ["bar(X) -> X.".data]).1 =
      some [(("foo.erl", "foo.erl", "F", "global"), "1"),
            (("foo", "foo.erl", "M", "global"), "1"),
            (("foo:bar", "foo.erl", "f", "global"), "/^bar\\>/"),
            (("bar", "foo.erl", "f", "local"), "/^bar\\>/")] := by decide

/-- C2: the claim's address string is wrong: the script's address
template escapes the stars (`"/^-\\s\\*" + attribute + "\\s\\*(\\s\\*" +
name + "\\>/"`, the characters `\s\*`), so `-define(MAX, 100).` in
`foo.hrl` is addressed `/^-\s\*define\s\*(\s\*MAX\>/`, not the claimed
`/^-\s*define\s*(\s*MAX\>/`. -/
theorem scenarioC_address_counterexample :
    (add_tags_from_file false [] "foo.hrl" ["-define(MAX, 100).".data]).1.map
      (lookupA ("MAX", "foo.hrl", "d", "global")) =
      some (some "/^-\\s\\*define\\s\\*(\\s\\*MAX\\>/") ∧
    "/^-\\s\\*define\\s\\*(\\s\\*MAX\\>/" ≠ "/^-\\s*define\\s*(\\s*MAX\\>/" := by decide

/-- C2 (amended): every record/macro match with attribute word `a` and
captured identifier `n` is recorded with address exactly
`"/^-\s\*" ++ a ++ "\s\*(\s\*" ++ n ++ "\>/"` (escaped stars); in
particular `foo.hrl` containing `-define(MAX, 100).` yields the record
`(MAX, foo.hrl, d, global)` with address `/^-\s\*define\s\*(\s\*MAX\>/`. -/
theorem recmac_address :
    (∀ (line : List Char) (a : String) (n : List Char),
      recmacMatch line = some (a, n) →
      ∀ (v : Bool) (t : Tags) (file : String) (nae : String × String),
        (add_recmac_tag v t file nae a (String.mk n)).1 =
          some (setdefault t
            (String.mk n, file, if a = "record" then "r" else "d", scopeOf nae)
            ("/^-\\s\\*" ++ a ++ "\\s\\*(\\s\\*" ++ String.mk n ++ "\\>/"))) ∧
    (add_tags_from_file false [] "foo.hrl" ["-define(MAX, 100).".data]).1 =
      some [(("foo.hrl", "foo.hrl", "F", "global"), "1"),
            (("MAX", "foo.hrl", "d", "global"), "/^-\\s\\*define\\s\\*(\\s\\*MAX\\>/")] := by
  constructor
  · intro line a n h v t file nae
    rcases recmac_attr h with ha | ha <;> subst ha <;> simp [add_recmac_tag, add_tag]
  · decide

theorem recmac_address_witness :
    recmacMatch "-define(MAX, 100).".data = some ("define", "MAX".data) ∧
    (add_recmac_tag false [] "f.erl" ("f", ".erl") "define" (String.mk "MAX".data)).1 =
      some (setdefault []
        (String.mk "MAX".data, "f.erl", if "define" = "record" then "r" else "d",
          scopeOf ("f", ".erl"))
        ("/^-\\s\\*" ++ "define" ++ "\\s\\*(\\s\\*" ++ String.mk "MAX".data ++ "\\>/")) :=
  ⟨by decide,
   recmac_address.1 "-define(MAX, 100).".data "define" "MAX".data (by decide)
     false [] "f.erl" ("f", ".erl")⟩

/-- C5: a serialized line is `Name TAB FilePath TAB Address;" TAB Kind`,
with the suffix `TAB file:` exactly for Local (non-`global`) scope;
`global` records end right after the kind letter (before the
terminating newline the script appends to every line). -/
theorem tag_line_format :
    ∀ (tag file kind tagaddress scope : String),
      scope = "global" ∨ scope = "local" →
      (tag_to_str ((tag, file, kind, scope), tagaddress) =
        tag ++ "\t" ++ file ++ "\t" ++ tagaddress ++ ";\"\t" ++ kind ++
          (if scope = "local" then "\tfile:" else "") ++ "\n") ∧
      (scope = "global" →
        tag_to_str ((tag, file, kind, scope), tagaddress) =
          tag ++ "\t" ++ file ++ "\t" ++ tagaddress ++ ";\"\t" ++ kind ++ "\n") := by
  intro tag file kind tagaddress scope h
  rcases h with h | h <;> subst h
  · constructor
    · simp [tag_to_str]
    · intro _
      simp [tag_to_str]
  · constructor
    · simp [tag_to_str]
    · intro hc
      exact absurd hc (by decide)

theorem tag_line_format_witness :
    ("global" = "global" ∨ "global" = "local") ∧
    (tag_to_str (("mymod:f", "./mymod.erl", "f", "global"), "/^f\\>/") =
      "mymod:f" ++ "\t" ++ "./mymod.erl" ++ "\t" ++ "/^f\\>/" ++ ";\"\t" ++ "f" ++
        (if ("global" : String) = "local" then "\tfile:" else "") ++ "\n") ∧
    (tag_to_str (("f", "./mymod.erl", "f", "local"), "/^f\\>/") =
      "f" ++ "\t" ++ "./mymod.erl" ++ "\t" ++ "/^f\\>/" ++ ";\"\t" ++ "f" ++
        (if ("local" : String) = "local" then "\tfile:" else "") ++ "\n") :=
  ⟨Or.inl rfl,
   (tag_line_format "mymod:f" "./mymod.erl" "f" "/^f\\>/" "global" (Or.inl rfl)).1,
   (tag_line_format "f" "./mymod.erl" "f" "/^f\\>/" "local" (Or.inr rfl)).1⟩

/-- C6: a record/macro tag's scope is `global` exactly when the file
extension is `.hrl`, and `local` otherwise; `-record(point, ...)` is
global in `foo.hrl` and local (with no global entry) in `foo.erl`. -/
theorem recmac_scope :
    (∀ nae : String × String,
      (scopeOf nae = "global" ↔ nae.2 = ".hrl") ∧
      (scopeOf nae = "local" ↔ nae.2 ≠ ".hrl")) ∧
    (∀ (line : List Char) (a : String) (n : List Char),
      recmacMatch line = some (a, n) →
      ∀ (file : String) (nae : String × String) (r : TagKey × String),
        r ∈ line_records file nae line → (r.1.2.2.2 = "global" ↔ nae.2 = ".hrl")) ∧
    (add_tags_from_file false [] "foo.hrl" ["-record(point, \x7bx, y\x7d).".data]).1.map
      (lookupA ("point", "foo.hrl", "r", "global")) =
      some (some "/^-\\s\\*record\\s\\*(\\s\\*point\\>/") ∧
    (add_tags_from_file false [] "foo.erl" ["-record(point, \x7bx, y\x7d).".data]).1.map
      (lookupA ("point", "foo.erl", "r", "local")) =
      some (some "/^-\\s\\*record\\s\\*(\\s\\*point\\>/") ∧
    (add_tags_from_file false [] "foo.erl" ["-record(point, \x7bx, y\x7d).".data]).1.map
      (lookupA ("point", "foo.erl", "r", "global")) = some none := by
  have hiff : ∀ nae : String × String,
      (scopeOf nae = "global" ↔ nae.2 = ".hrl") ∧
      (scopeOf nae = "local" ↔ nae.2 ≠ ".hrl") := by
    intro nae
    by_cases hc : nae.2 = ".hrl"
    · rw [scopeOf, if_pos hc]
      exact ⟨⟨fun _ => hc, fun _ => rfl⟩,
        ⟨fun h => absurd h (by decide), fun h => absurd hc h⟩⟩
    · rw [scopeOf, if_neg hc]
      exact ⟨⟨fun h => absurd h (by decide), fun h => absurd h hc⟩,
        ⟨fun _ => hc, fun _ => rfl⟩⟩
  refine ⟨hiff, ?_, by decide, by decide, by decide⟩
  intro line a n h file nae r hr
  have hf := recmac_funcMatch_none h
  rcases recmac_attr h with ha | ha <;> subst ha
  · rw [line_records_record hf h, List.mem_singleton] at hr
    subst hr
    exact (hiff nae).1
  · rw [line_records_define hf h, List.mem_singleton] at hr
    subst hr
    exact (hiff nae).1

theorem recmac_scope_witness :
    scopeOf ("foo", ".hrl") = "global" ∧
    ((("point", "foo.hrl", "r", scopeOf ("foo", ".hrl")),
      "/^-\\s\\*record\\s\\*(\\s\\*point\\>/") : TagKey × String).1.2.2.2 = "global" :=
  ⟨((recmac_scope.1 ("foo", ".hrl")).1).mpr rfl,
   (recmac_scope.2.1 "-record(point, \x7bx, y\x7d).".data "record" "point".data (by decide)
     "foo.hrl" ("foo", ".hrl")
     ((("point", "foo.hrl", "r", scopeOf ("foo", ".hrl")),
       "/^-\\s\\*record\\s\\*(\\s\\*point\\>/") : TagKey × String) (by decide)).mpr rfl⟩

/-- C7: a line matching neither recognizer adds nothing: the dictionary
is returned unchanged, no message and no error is produced; in
particular `  Foo(X) ->` (leading whitespace, uppercase initial) matches
neither recognizer. -/
theorem unmatched_line_no_tags :
    (∀ (v : Bool) (file : String) (nae : String × String) (line : List Char) (t : Tags),
      funcMatch line = none → recmacMatch line = none →
      scan_tags v file nae line t = (some t, [])) ∧
    funcMatch "  Foo(X) ->".data = none ∧
    recmacMatch "  Foo(X) ->".data = none ∧
    (∀ (v : Bool) (file : String) (nae : String × String) (t : Tags),
      scan_tags v file nae "  Foo(X) ->".data t = (some t, [])) := by
  have hgen : ∀ (v : Bool) (file : String) (nae : String × String) (line : List Char)
      (t : Tags), funcMatch line = none → recmacMatch line = none →
      scan_tags v file nae line t = (some t, []) := by
    intro v file nae line t hf hr
    unfold scan_tags
    rw [hf, hr]
  refine ⟨hgen, by decide, by decide, ?_⟩
  intro v file nae t
  exact hgen v file nae _ t (by decide) (by decide)

theorem unmatched_line_no_tags_witness :
    funcMatch "  Foo(X) ->".data = none ∧
    recmacMatch "  Foo(X) ->".data = none ∧
    scan_tags false "foo.erl" ("foo", ".erl") "  Foo(X) ->".data [] = (some [], []) :=
  ⟨by decide, by decide,
   unmatched_line_no_tags.1 false "foo.erl" ("foo", ".erl") "  Foo(X) ->".data []
     (by decide) (by decide)⟩

/-- C8: the claim's non-emptiness conjunct is false of the program:
Python's `\b` is Unicode-aware, so on the line `-define(é)` the
explicit class `[a-zA-Z0-9_@]*` captures nothing and the boundary holds
between the non-word `(` and the word character `é` — `recmac_re`
matches with an empty group 2, and `add_recmac_tag` is reached with
`name = ''`, recording a tag with an empty Name without any error. -/
theorem recmac_empty_capture_counterexample :
    recmacMatch "-define(é)".data = some ("define", []) ∧
    (add_recmac_tag false [] "foo.erl" ("foo", ".erl") "define" (String.mk [])).1 =
      some [((("", "foo.erl", "d", "local") : TagKey),
        "/^-\\s\\*define\\s\\*(\\s\\*\\>/")] := by decide

/-- C8 (amended): whenever `recmac_re` matches, the captured attribute
is exactly `record` or `define`, so the kind-selection branching in
`add_recmac_tag` always assigns a kind: the fall-through (modelled by
`none`) is unreachable from recognizer matches — even when the captured
identifier is empty.  The captured identifier is nonempty whenever the
line consists of ASCII characters; on lines with non-ASCII word
characters it can be empty (see the counterexample). -/
theorem recmac_match_wellformed :
    ∀ (line : List Char) (a : String) (n : List Char),
      recmacMatch line = some (a, n) →
      (a = "record" ∨ a = "define") ∧ (recmacKind a).isSome = true ∧
      (∀ (v : Bool) (t : Tags) (file : String) (nae : String × String),
        ((add_recmac_tag v t file nae a (String.mk n)).1).isSome = true) ∧
      ((∀ c ∈ line, c.toNat < 128) → n ≠ []) := by
  intro line a n h
  have ha := recmac_attr h
  refine ⟨ha, ?_, ?_, fun hline => recmac_name_ne_nil hline h⟩
  · rcases ha with ha | ha <;> subst ha <;> rfl
  · intro v t file nae
    rcases ha with ha | ha <;> subst ha <;> simp [add_recmac_tag]

theorem recmac_match_wellformed_witness :
    (("define" : String) = "record" ∨ ("define" : String) = "define") ∧
    (recmacKind "define").isSome = true ∧
    ((add_recmac_tag false [] "foo.hrl" ("foo", ".hrl") "define"
      (String.mk "MAX".data)).1).isSome = true ∧
    "MAX".data ≠ [] :=
  let h := recmac_match_wellformed "-define(MAX, 100).".data "define" "MAX".data (by decide)
  ⟨h.1, h.2.1, h.2.2.1 false [] "foo.hrl" ("foo", ".hrl"), h.2.2.2 (by decide)⟩

/-- C3: `setdefault` is idempotent (first writer wins): inserting an
existing key is a no-op; the dictionary built from any record stream has
no duplicate keys; the extractor's record stream is consistent whatever
the input files (same symbol on several lines, same file twice); and
folding a consistent record stream in any order yields a dictionary with
identical content (lookups).  The last conjunct ties the scanning code
to the record stream: processing a file is exactly first-writer-wins
insertion of its records. -/
theorem insertion_first_writer_wins :
    (∀ (t : Tags) (k : TagKey) (v : String), k ∈ t.map Prod.fst → setdefault t k v = t) ∧
    (∀ rs : List (TagKey × String), ((insertAll [] rs).map Prod.fst).Nodup) ∧
    (∀ inputs : List (String × List (List Char)),
      Consistent (inputs.flatMap (fun pr => file_records pr.1 pr.2))) ∧
    (∀ (rs₁ rs₂ : List (TagKey × String)), rs₁.Perm rs₂ → Consistent rs₁ →
      ∀ k : TagKey, lookupA k (insertAll [] rs₁) = lookupA k (insertAll [] rs₂)) ∧
    (∀ (v : Bool) (t : Tags) (file : String) (lines : List (List Char)),
      (add_tags_from_file v t file lines).1 =
        some (insertAll t (file_records file lines))) := by
  refine ⟨?_, ?_, file_records_consistent, ?_, add_tags_from_file_fst⟩
  · intro t k v h
    exact setdefault_of_mem v h
  · intro rs
    exact insertAll_nodup rs (by simp)
  · intro rs₁ rs₂ hp hc k
    rw [lookupA_insertAll_nil, lookupA_insertAll_nil]
    exact lookupA_perm hp hc k

theorem insertion_first_writer_wins_witness :
    (("k", "f", "F", "global") ∈
        ([((("k", "f", "F", "global") : TagKey), "1")].map Prod.fst) ∧
      setdefault [((("k", "f", "F", "global") : TagKey), "1")]
        ("k", "f", "F", "global") "2" = [((("k", "f", "F", "global") : TagKey), "1")]) ∧
    lookupA (("a", "f", "d", "global") : TagKey)
        (insertAll [] [((("a", "f", "d", "global") : TagKey), "x"),
          ((("b", "f", "d", "global") : TagKey), "y")]) =
      lookupA ("a", "f", "d", "global")
        (insertAll [] [((("b", "f", "d", "global") : TagKey), "y"),
          ((("a", "f", "d", "global") : TagKey), "x")]) :=
  ⟨⟨by decide,
    insertion_first_writer_wins.1 [((("k", "f", "F", "global") : TagKey), "1")]
      ("k", "f", "F", "global") "2" (by decide)⟩,
   insertion_first_writer_wins.2.2.2.1
     [((("a", "f", "d", "global") : TagKey), "x"), ((("b", "f", "d", "global") : TagKey), "y")]
     [((("b", "f", "d", "global") : TagKey), "y"), ((("a", "f", "d", "global") : TagKey), "x")]
     (by decide) (by unfold Consistent; decide) ("a", "f", "d", "global")⟩

/-- C4: serialization writes the exact sorted-declaration header line
first, then one line per stored record in ascending lexicographic order
of the `(Name, FilePath, Kind, Scope)` key (strictly ascending on a
dictionary, whose keys are unique); the empty table serializes to the
header alone. -/
theorem serialization_sorted :
    (∀ tags : Tags, tags_to_file tags =
      "!_TAG_FILE_SORTED\t1\t/0=unsorted, 1=sorted/\n" ++
        String.join ((sortItems tags).map tag_to_str)) ∧
    (∀ tags : Tags, (sortItems tags).Perm tags) ∧
    (∀ tags : Tags, ((sortItems tags).map Prod.fst).Pairwise keyLe) ∧
    (∀ tags : Tags, (tags.map Prod.fst).Nodup →
      ((sortItems tags).map Prod.fst).Pairwise keyLt) ∧
    tags_to_file [] = "!_TAG_FILE_SORTED\t1\t/0=unsorted, 1=sorted/\n" := by
  refine ⟨fun tags => rfl, sortItems_perm, sortItems_keys_le, sortItems_keys_lt, ?_⟩
  decide

theorem serialization_sorted_witness :
    (([((("b", "f", "F", "global") : TagKey), "1"),
        ((("a", "f", "F", "global") : TagKey), "1")].map Prod.fst).Nodup) ∧
    ((sortItems [((("b", "f", "F", "global") : TagKey), "1"),
        ((("a", "f", "F", "global") : TagKey), "1")]).map Prod.fst).Pairwise keyLt :=
  ⟨by decide,
   serialization_sorted.2.2.2.1
     [((("b", "f", "F", "global") : TagKey), "1"), ((("a", "f", "F", "global") : TagKey), "1")]
     (by decide)⟩

/-- C9: the dictionary produced by a run, and hence the serialized
output, does not depend on the verbose flag: verbose only changes the
diagnostic messages (the second component). -/
theorem verbose_noninterference :
    ∀ (fs : String → List (List Char)) (files stdinLines : List String),
      (create_tags true fs files stdinLines).1 =
        (create_tags false fs files stdinLines).1 ∧
      Option.map tags_to_file (create_tags true fs files stdinLines).1 =
        Option.map tags_to_file (create_tags false fs files stdinLines).1 := by
  intro fs files stdinLines
  have h : (create_tags true fs files stdinLines).1 =
      (create_tags false fs files stdinLines).1 := by
    rw [create_tags_fst, create_tags_fst]
  exact ⟨h, by rw [h]⟩

theorem verbose_noninterference_witness :
    (create_tags true (fun _ => ["bar(X) -> X.".data]) ["foo.erl"] []).1 =
      (create_tags false (fun _ => ["bar(X) -> X.".data]) ["foo.erl"] []).1 :=
  (verbose_noninterference (fun _ => ["bar(X) -> X.".data]) ["foo.erl"] []).1

/-- C10: when the path list contains `-` more than once, only the first
occurrence is removed (and routes the stripped standard-input lines to
the front of the processing order, once); every other `-` stays in the
list, is still present after the removal, and goes through the same
per-path processing step as any ordinary path. -/
theorem dash_first_occurrence :
    ∀ (files stdinLines : List String), 2 ≤ files.count "-" →
      processed_paths files stdinLines = stdinLines.map pyStrip ++ files.erase "-" ∧
      (files.erase "-").count "-" = files.count "-" - 1 ∧
      "-" ∈ files.erase "-" ∧
      ∀ (v : Bool) (fs : String → List (List Char)),
        create_tags v fs files stdinLines =
          (stdinLines.map pyStrip ++ files.erase "-").foldl (pathStep v fs)
            (some [], log v "Tags dictionary created.") := by
  intro files stdinLines h
  have hmem : "-" ∈ files := List.count_pos_iff.mp (by omega)
  have hpp : processed_paths files stdinLines =
      stdinLines.map pyStrip ++ files.erase "-" := processed_paths_of_mem hmem
  have hcount : (files.erase "-").count "-" = files.count "-" - 1 :=
    List.count_erase_self "-" files
  have hmem2 : "-" ∈ files.erase "-" := List.count_pos_iff.mp (by rw [hcount]; omega)
  refine ⟨hpp, hcount, hmem2, ?_⟩
  intro v fs
  unfold create_tags
  rw [hpp]

theorem dash_first_occurrence_witness :
    2 ≤ (["a.erl", "-", "b.erl", "-"] : List String).count "-" ∧
    processed_paths ["a.erl", "-", "b.erl", "-"] [" x.erl "] =
      ([" x.erl "].map pyStrip ++ (["a.erl", "-", "b.erl", "-"] : List String).erase "-") ∧
    "-" ∈ (["a.erl", "-", "b.erl", "-"] : List String).erase "-" :=
  ⟨by decide,
   (dash_first_occurrence ["a.erl", "-", "b.erl", "-"] [" x.erl "] (by decide)).1,
   (dash_first_occurrence ["a.erl", "-", "b.erl", "-"] [" x.erl "] (by decide)).2.2.1⟩
